import Mathlib

/-!
Verification of the ausocean/h264decode bit-stream layer against its
natural-language specification.

The repository contains several coexisting bit-reader implementations plus
the NAL framing helpers, the Exp-Golomb ue(v) parser and the CABAC
`rangeTabLPS` table.  Each Go function used by a claim is shallowly
embedded below as an executable Lean definition; Go machine integers are
modelled as `Nat` (or `Int` for Go `int`) with explicit `% 2 ^ 64`
truncation wherever Go's `uint64` arithmetic can overflow.
-/

/-! ## Specification-side big-endian bit decoding

These definitions follow the spec's words ("decoding B's first n₁+…+nₖ
bits big-endian (MSB first) and splitting them at the partition
boundaries"); they are the reference against which the readers' outputs
are compared. -/

namespace BE

/-- Value of a bit list read MSB first. -/
def bitsToNat : List Bool → Nat
  | [] => 0
  | b :: r => (if b then 2 ^ r.length else 0) + bitsToNat r

/-- The 8 bits of a byte, MSB first. -/
def byteBits (b : Nat) : List Bool :=
  (List.range 8).map (fun i => b / 2 ^ (7 - i) % 2 == 1)

/-- All bits of a byte sequence, MSB first. -/
def bytesBits : List Nat → List Bool
  | [] => []
  | b :: r => byteBits b ++ bytesBits r

/-- The k-bit big-endian encoding of s (MSB first). -/
def natBits (k s : Nat) : List Bool :=
  (List.range k).map (fun i => s / 2 ^ (k - 1 - i) % 2 == 1)

/-- Big-endian decode of the leading bits of a bit list, split at the
partition boundaries given by `widths`. -/
def splitValues : List Bool → List Nat → List Nat
  | _, [] => []
  | bits, n :: ns => bitsToNat (bits.take n) :: splitValues (bits.drop n) ns

/-- Spec-side meaning of sequential reads of the given widths over a byte
sequence: the big-endian decode of the stream split at the boundaries. -/
def beSplit (bytes : List Nat) (widths : List Nat) : List Nat :=
  splitValues (bytesBits bytes) widths

end BE

/-! ## The bufio-backed BitReader (src/unnamed/part_003)

State: the remaining source bytes (the `bufio.Reader`, whose only error
on a byte-slice source is `io.EOF`), the accumulator `br.n : uint64`, and
the count `br.bits` of valid low bits of the accumulator. -/

namespace Bufio

/-- Errors surfaced through the `error` results: `io.EOF`,
`io.ErrUnexpectedEOF` and `bufio.ErrNegativeCount`. -/
inductive IOErr where
  | eof
  | unexpectedEOF
  | negativeCount
deriving DecidableEq, Repr

/-- State of the part_003 `BitReader`: remaining source bytes, the
accumulator `n` (a `uint64`, kept reduced mod `2 ^ 64`) and the number of
valid bits in it. -/
structure BR where
  src : List Nat
  acc : Nat
  bits : Nat
deriving DecidableEq, Repr

/-- The fill loop of `ReadBits` (part_003 lines 75-86): while `n > br.bits`,
pull a byte with `ReadByte`, shift it into the accumulator (uint64, so
mod `2 ^ 64`) and add 8 to the bit count.  On an exhausted byte-slice
source `ReadByte` yields `io.EOF`, which lines 77-79 convert to
`io.ErrUnexpectedEOF` (any other source error would be returned verbatim,
but a byte-slice source produces none). -/
def fillLoop (n : Nat) : Nat → Nat → List Nat → Except IOErr BR
  | acc, bits, src =>
    if bits < n then
      match src with
      | [] => .error .unexpectedEOF
      | b :: rest => fillLoop n ((acc * 256 + b) % 2 ^ 64) (bits + 8) rest
    else .ok ⟨src, acc, bits⟩

/-- Go's `(1 << n) - 1` on `uint64`: all-ones for `n ≥ 64`. -/
def mask64 (n : Nat) : Nat := (2 ^ n - 1) % 2 ^ 64

/-- part_003 `ReadBits`: fill until `br.bits ≥ n`, then
`r := (br.n >> (br.bits - n)) & ((1 << n) - 1)` and `br.bits -= n`.
Returns the Go pair (value, error); on error the value is 0. -/
def ReadBits (st : BR) (n : Nat) : Nat × Except IOErr BR :=
  match fillLoop n st.acc st.bits st.src with
  | .error e => (0, .error e)
  | .ok st' =>
    ((st'.acc >>> (st'.bits - n)) &&& mask64 n, .ok ⟨st'.src, st'.acc, st'.bits - n⟩)

/-- The accumulation loop of `PeekBits` (part_003 lines 123-131): same
shifting as the fill loop but over the peeked bytes, with a local copy of
the bit count; the accumulator mutation is persisted in the reader.
Returns the final accumulator and the local bit count. -/
def peekLoop (n : Nat) (acc : Nat) (bits : Nat) : List Nat → Nat × Nat
  | [] => (acc, bits)
  | b :: rest =>
    if bits < n then peekLoop n ((acc * 256 + b) % 2 ^ 64) (bits + 8) rest
    else (acc, bits)

/-- part_003 `PeekBits`: peeks `int((n-br.bits)+7)/8` bytes (uint
arithmetic, so the count wraps when `br.bits > n + 7`, which bufio's
`Peek` rejects as a negative count), runs the same accumulation loop on a
local bit count, and extracts the top n bits.  `br.n` is mutated but
`br.bits` and the bufio cursor are not. -/
def PeekBits (st : BR) (n : Nat) : Nat × Except IOErr BR :=
  if st.bits ≤ n + 7 then
    let cnt := (n + 7 - st.bits) / 8
    if st.src.length < cnt then (0, .error .unexpectedEOF)
    else
      let (acc, bits) := peekLoop n st.acc st.bits (st.src.take cnt)
      ((acc >>> (bits - n)) &&& mask64 n, .ok ⟨st.src, acc, st.bits⟩)
  else
    (0, .error .negativeCount)

/-- Bits still obtainable: valid accumulator bits plus source bytes. -/
def avail (st : BR) : Nat := st.bits + 8 * st.src.length

/-- A fresh reader over a byte sequence. -/
def mk (bytes : List Nat) : BR := ⟨bytes, 0, 0⟩

/-- Run a sequence of `ReadBits` calls, collecting the values; stops at
the first error. -/
def runReads (st : BR) : List Nat → Option (List Nat)
  | [] => some []
  | n :: ns =>
    match ReadBits st n with
    | (_, .error _) => none
    | (v, .ok st') => (runReads st' ns).map (fun vs => v :: vs)

end Bufio

/-! ## The cache-backed BitReader (src/unnamed/part_002)

State: remaining source bytes, the byte cache, and `bits`, the number of
bits left in the head byte of the cache (8 when the head byte is whole).
Errors and Go panics (indexing an empty cache) are modelled as `none`;
the partial-read corner of `resizeCache` (a source that returns fewer
bytes than requested while not at EOF, which would append stale `tmp`
bytes) cannot arise from a byte-slice source and is modelled as `none`
as well. -/

namespace Cache

/-- State of the part_002 `BitReader`. -/
structure BR where
  src : List Nat
  c : List Nat
  bits : Nat
deriving DecidableEq, Repr

/-- `appendBits` (part_002 lines 119-124):
`res = res << rshift; res |= uint64(from >> bshift) & (0xff >> mshift)`,
all on `uint64`. -/
def appendBits (res rshift mshift bshift byt : Nat) : Nat :=
  ((res <<< rshift) % 2 ^ 64) ||| ((byt >>> bshift) &&& (0xff >>> mshift))

/-- The `l` computed by `resizeCache`: `8*(uint(len(c))-1) + bits` in
wrapping `uint` arithmetic (for an empty cache `uint(0)-1` wraps). -/
def cacheLen (c : List Nat) (bits : Nat) : Nat :=
  (8 * ((c.length + (2 ^ 64 - 1)) % 2 ^ 64) + bits) % 2 ^ 64

/-- `resizeCache` (part_002 lines 126-138): if more than `l` bits are
wanted, pull `ceil((n-l)/8)` bytes from the source into the cache. -/
def resizeCache (st : BR) (n : Nat) : Option BR :=
  let l := cacheLen st.c st.bits
  if l < n then
    let nbytes := (n - l + 7) / 8
    if st.src.length < nbytes then none
    else some ⟨st.src.drop nbytes, st.c ++ st.src.take nbytes, st.bits⟩
  else some st

/-- The extraction loop of `readBits` (part_002 lines 99-116) as used by
`ReadBits` (where `advance` deletes the cache head and `i` stays 0).
Returns the result plus the final `bits` and cache.  `c.get(0)` on an
empty cache is a Go panic, modelled as `none`. -/
def readLoop : Nat → Nat → List Nat → Nat → Option (Nat × Nat × List Nat)
  | _, _, [], _ => none
  | n, bits, b :: rest, res =>
    if bits < n then
      readLoop (n - bits) 8 rest (appendBits res bits (8 - bits) 0 b)
    else
      let res' := appendBits res n (8 - bits) (bits - n) b
      if n == bits then some (res', 8, rest) else some (res', bits - n, b :: rest)

/-- part_002 `ReadBits`: reject `n > 64` (`errMaxBits`), resize the cache,
then run the extraction loop. -/
def ReadBits (st : BR) (n : Nat) : Option (Nat × BR) :=
  if 64 < n then none
  else
    match resizeCache st n with
    | none => none
    | some st' =>
      match readLoop n st'.bits st'.c 0 with
      | none => none
      | some (res, bits', c') => some (res, ⟨st'.src, c', bits'⟩)

/-- A fresh reader (`NewBitReader`): empty cache, `bits = 8`. -/
def mk (bytes : List Nat) : BR := ⟨bytes, [], 8⟩

/-- Run a sequence of `ReadBits` calls, collecting the values. -/
def runReads (st : BR) : List Nat → Option (List Nat)
  | [] => some []
  | n :: ns =>
    match ReadBits st n with
    | none => none
    | some (v, st') => (runReads st' ns).map (fun vs => v :: vs)

end Cache

/-! ## The h264 package BitReader (src/h264/bits/bitreader.go)

State: the buffered bytes and the `int` cursors `byteOffset`, `bitOffset`
and `bitsRead`.  Go `int` arithmetic is modelled on `Int`; Go's `/` and
`%` truncate toward zero (`Int.tdiv` / `Int.tmod`). -/

namespace HB

/-- State of the h264 `BitReader`. -/
structure BR where
  bytes : List Nat
  byteOffset : Int
  bitOffset : Int
  bitsRead : Int
deriving DecidableEq, Repr

/-- `setOffset`: recompute both offsets from `bitsRead`. -/
def setOffset (st : BR) : BR :=
  { st with byteOffset := Int.tdiv st.bitsRead 8, bitOffset := Int.tmod st.bitsRead 8 }

/-- `Fastforward`: advance `bitsRead` and recompute the offsets. -/
def Fastforward (st : BR) (bits : Int) : BR :=
  setOffset { st with bitsRead := st.bitsRead + bits }

/-- `RewindBytes`: guard against seeking below zero, then subtract `n`
bytes and `n*8` bits and recompute the offsets. -/
def RewindBytes (st : BR) (n : Int) : Except String BR :=
  if st.byteOffset - n < 0 then .error "attempted to seek below 0"
  else .ok (setOffset { st with byteOffset := st.byteOffset - n,
                                bitsRead := st.bitsRead - n * 8 })

/-- `RewindBits`: for `n > 8` first `RewindBytes(n/8)` (which already
subtracts `(n/8)*8` from `bitsRead`), then subtract `n` again; for
`n ≤ 8` just subtract `n`. -/
def RewindBits (st : BR) (n : Int) : Except String BR :=
  if 8 < n then
    match RewindBytes st (Int.tdiv n 8) with
    | .error e => .error e
    | .ok st' => .ok (setOffset { st' with bitsRead := st'.bitsRead - n })
  else .ok (setOffset { st with bitsRead := st.bitsRead - n })

/-- The stubbed `Read` (bitreader.go lines 130-133): returns `(0, nil)`
and leaves the buffer untouched. -/
def Read (_st : BR) (buf : List Int) : List Int × Int × Option String :=
  (buf, 0, none)

/-- The scan loop of `MoreRBSPData` (lines 54-59):
`for buf[0] != 1 { if Read errors, return false; cnt++ }`, then
`cnt > 0`.  The loop is given explicit fuel; `none` means it has not
terminated within `fuel` iterations. -/
def moreLoop (st : BR) (buf0 : Int) (cnt : Nat) : Nat → Option Bool
  | 0 => none
  | fuel + 1 =>
    if buf0 ≠ 1 then
      match Read st [buf0] with
      | (_, _, some _) => some false
      | (buf', _, none) => moreLoop st (buf'.headD 0) (cnt + 1) fuel
    else some (decide (0 < cnt))

/-- `MoreRBSPData`: `false` when no buffered bytes remain past the byte
offset, otherwise the scan loop starting from a zeroed 1-element buffer. -/
def MoreRBSPData (st : BR) (fuel : Nat) : Option Bool :=
  if (st.bytes.length : Int) - st.byteOffset = 0 then some false
  else moreLoop st 0 0 fuel

end HB

/-! ## NAL start-sequence detection (src/h264/read.go lines 129-140) -/

/-- Modelled from the spec: the constant `InitialNALU` is declared outside
the provided sources (in the NAL-unit file); the spec's design notes state
that `isStartSequence` compares against "a fixed four-byte suffix", the
four-byte start code `0x00 0x00 0x00 0x01` of §4.2. -/
def InitialNALU : List Nat := [0, 0, 0, 1]

/-- `isStartSequence`: false for packets shorter than `InitialNALU`,
otherwise compare the last four bytes of the packet with `InitialNALU`
element by element. -/
def isStartSequence (packet : List Nat) : Bool :=
  if packet.length < InitialNALU.length then false
  else
    let naluSegment := packet.drop (packet.length - 4)
    (List.range InitialNALU.length).all
      (fun i => naluSegment.getD i 0 == InitialNALU.getD i 0)

/-! ## Exp-Golomb ue(v) parsing (src/h264/parse.go lines 41-55)

The bitio reader is modelled as a list of bits, read MSB first;
`ReadBits(n)` yields the next n bits or an error when fewer remain.
`readUe` computes `uint(math.Pow(2, nZeros) - 1 + float64(rem))`; the
float64 expression is exactly `2 ^ nZeros - 1 + rem` whenever
`nZeros ≤ 52` (every intermediate value is below `2 ^ 53`), and the model
uses that exact value — theorems about the decoded value therefore carry
a `≤ 52` bound on the leading-zero count. -/

namespace Parse

/-- Read error of the bit-list reader (source exhausted). -/
inductive Err where
  | eof
deriving DecidableEq, Repr

/-- `bitio.Reader.ReadBits(k)`: the next k bits MSB first as a number,
with the rest of the stream; an error when fewer than k bits remain. -/
def readNBits : Nat → List Bool → Except Err (Nat × List Bool)
  | 0, l => .ok (0, l)
  | _ + 1, [] => .error .eof
  | k + 1, b :: r =>
    match readNBits k r with
    | .error e => .error e
    | .ok (v, rest) => .ok ((if b then 2 ^ k else 0) + v, rest)

/-- The leading-zero loop of `readUe` (parse.go lines 42-49): read single
bits until a 1 appears, counting the zeros consumed before it. -/
def ueLoop : List Bool → Except Err (Nat × List Bool)
  | [] => .error .eof
  | b :: r =>
    if b then .ok (0, r)
    else
      match ueLoop r with
      | .error e => .error e
      | .ok (k, rest) => .ok (k + 1, rest)

/-- `readUe`: count `nZeros` leading zeros, consume the 1, read `nZeros`
suffix bits, and return `2 ^ nZeros - 1 + rem` (exact for
`nZeros ≤ 52`, see the section comment). -/
def readUe (l : List Bool) : Except Err (Nat × List Bool) :=
  match ueLoop l with
  | .error e => .error e
  | .ok (k, r) =>
    match readNBits k r with
    | .error e => .error e
    | .ok (s, rest) => .ok (2 ^ k - 1 + s, rest)

end Parse

/-! ## The CABAC rangeTabLPS table (src/h264/rangeTabLPS.go) -/

/-- Number of columns of `rangeTabLPS`. -/
def rangeTabLPSColumns : Nat := 4

/-- Number of rows of `rangeTabLPS`. -/
def rangeTabLPSRows : Nat := 64

/-- The table as written in rangeTabLPS.go lines 12-77. -/
def rangeTabLPS : List (List Nat) := [
  [128, 176, 208, 240],
  [128, 167, 197, 227],
  [128, 158, 187, 216],
  [123, 150, 178, 205],
  [116, 142, 169, 195],
  [111, 135, 160, 185],
  [105, 128, 152, 175],
  [100, 122, 144, 166],
  [95, 116, 137, 158],
  [90, 110, 130, 150],
  [85, 104, 123, 142],
  [81, 99, 117, 135],
  [77, 94, 111, 128],
  [73, 89, 105, 122],
  [69, 85, 100, 116],
  [66, 80, 95, 110],
  [62, 76, 90, 104],
  [59, 72, 86, 99],
  [56, 69, 81, 94],
  [53, 65, 77, 89],
  [51, 62, 73, 85],
  [48, 59, 69, 80],
  [46, 56, 66, 76],
  [43, 53, 63, 72],
  [41, 50, 59, 69],
  [39, 48, 56, 65],
  [37, 45, 54, 62],
  [35, 43, 51, 59],
  [33, 41, 48, 56],
  [32, 39, 46, 53],
  [30, 37, 43, 50],
  [29, 35, 41, 48],
  [27, 33, 39, 45],
  [26, 61, 67, 43],
  [24, 30, 35, 41],
  [23, 28, 33, 39],
  [22, 27, 32, 37],
  [21, 26, 30, 35],
  [20, 24, 29, 33],
  [19, 23, 27, 31],
  [18, 22, 26, 30],
  [17, 21, 25, 28],
  [16, 20, 23, 27],
  [15, 19, 22, 25],
  [14, 18, 21, 24],
  [14, 17, 20, 23],
  [13, 16, 19, 22],
  [12, 15, 18, 21],
  [12, 14, 17, 20],
  [11, 14, 16, 19],
  [11, 13, 15, 18],
  [10, 12, 15, 17],
  [10, 12, 14, 16],
  [9, 11, 13, 15],
  [9, 11, 12, 14],
  [8, 10, 12, 14],
  [8, 9, 11, 13],
  [7, 9, 11, 12],
  [7, 9, 10, 12],
  [7, 8, 10, 11],
  [6, 8, 9, 11],
  [6, 7, 9, 10],
  [6, 7, 8, 9],
  [2, 2, 2, 2]]

/-- Entry of the source table at a row/column pair. -/
def rangeTabLPSval (p q : Nat) : Nat := (rangeTabLPS.getD p []).getD q 0

/-- Modelled from the spec: the `codIRangeLPS` values of Table 9-44 in
§9.3.3.2.1.1 of ITU-T H.264, which rangeTabLPS.go's comments cite as the
definition of the table.  Values transcribed from the standard. -/
def rangeTabLPSStd : List (List Nat) := [
  [128, 176, 208, 240],
  [128, 167, 197, 227],
  [128, 158, 187, 216],
  [123, 150, 178, 205],
  [116, 142, 169, 195],
  [111, 135, 160, 185],
  [105, 128, 152, 175],
  [100, 122, 144, 166],
  [95, 116, 137, 158],
  [90, 110, 130, 150],
  [85, 104, 123, 142],
  [81, 99, 117, 135],
  [77, 94, 111, 128],
  [73, 89, 105, 122],
  [69, 85, 100, 116],
  [66, 80, 95, 110],
  [62, 76, 90, 104],
  [59, 72, 86, 99],
  [56, 69, 81, 94],
  [53, 65, 77, 89],
  [51, 62, 73, 85],
  [48, 59, 69, 80],
  [46, 56, 66, 76],
  [43, 53, 63, 72],
  [41, 50, 59, 69],
  [39, 48, 56, 65],
  [37, 45, 54, 62],
  [35, 43, 51, 59],
  [33, 41, 48, 56],
  [32, 39, 46, 53],
  [30, 37, 43, 50],
  [29, 35, 41, 48],
  [27, 33, 39, 45],
  [26, 31, 37, 43],
  [24, 30, 35, 41],
  [23, 28, 33, 39],
  [22, 27, 32, 37],
  [21, 26, 30, 35],
  [20, 24, 29, 33],
  [19, 23, 27, 31],
  [18, 22, 26, 30],
  [17, 21, 25, 28],
  [16, 20, 23, 27],
  [15, 19, 22, 25],
  [14, 18, 21, 24],
  [14, 17, 20, 23],
  [13, 16, 19, 22],
  [12, 15, 18, 21],
  [12, 14, 17, 20],
  [11, 14, 16, 19],
  [11, 13, 15, 18],
  [10, 12, 15, 17],
  [10, 12, 14, 16],
  [9, 11, 13, 15],
  [9, 11, 12, 14],
  [8, 10, 12, 14],
  [8, 9, 11, 13],
  [7, 9, 11, 12],
  [7, 9, 10, 12],
  [7, 8, 10, 11],
  [6, 8, 9, 11],
  [6, 7, 9, 10],
  [6, 7, 8, 9],
  [2, 2, 2, 2]]

/-- Entry of the standard's Table 9-44 at a row/column pair. -/
def rangeTabLPSStdVal (p q : Nat) : Nat := (rangeTabLPSStd.getD p []).getD q 0

/-- The cells where the source table differs from Table 9-44. -/
def rangeTabLPSDiff : List (Nat × Nat) :=
  (List.range rangeTabLPSRows).flatMap (fun p =>
    (List.range rangeTabLPSColumns).filterMap (fun q =>
      if rangeTabLPSval p q ≠ rangeTabLPSStdVal p q then some (p, q) else none))

/-- `retCodIRangeLPS` (rangeTabLPS.go lines 82-92): bounds-check both
indices, then return the table entry. -/
def retCodIRangeLPS (pStateIdx qCodIRangeIdx : Int) : Except String Int :=
  if 0 > pStateIdx ∨ pStateIdx ≥ (rangeTabLPSRows : Int) then .error "invalid pStateIdx"
  else if 0 > qCodIRangeIdx ∨ qCodIRangeIdx ≥ (rangeTabLPSColumns : Int) then
    .error "invalid qCodIRangeIdx"
  else .ok (rangeTabLPSval pStateIdx.toNat qCodIRangeIdx.toNat)

/-! ## Helper lemmas: big-endian encodings and ue(v) decoding -/

theorem ueLoop_zeros (k : Nat) (r : List Bool) :
    Parse.ueLoop (List.replicate k false ++ true :: r) = .ok (k, r) := by
  induction k with
  | zero => simp [Parse.ueLoop]
  | succ k ih => simp [Parse.ueLoop, List.replicate_succ, ih]

theorem readNBits_append (l t : List Bool) :
    Parse.readNBits l.length (l ++ t) = .ok (BE.bitsToNat l, t) := by
  induction l with
  | nil => simp [Parse.readNBits, BE.bitsToNat]
  | cons b r ih => simp [Parse.readNBits, BE.bitsToNat, ih]

theorem natBits_length (k s : Nat) : (BE.natBits k s).length = k := by
  simp [BE.natBits]

theorem natBits_succ (k s : Nat) :
    BE.natBits (k + 1) s = (s / 2 ^ k % 2 == 1) :: BE.natBits k s := by
  unfold BE.natBits
  rw [List.range_succ_eq_map, List.map_cons, List.map_map]
  congr 1
  apply List.map_congr_left
  intro i _
  simp [Nat.sub_sub, Nat.add_comm]

theorem bitsToNat_natBits (k s : Nat) :
    BE.bitsToNat (BE.natBits k s) = s % 2 ^ k := by
  induction k with
  | zero => simp [BE.natBits, BE.bitsToNat, Nat.mod_one]
  | succ k ih =>
    rw [natBits_succ]
    show (if (s / 2 ^ k % 2 == 1) then 2 ^ (BE.natBits k s).length else 0) +
        BE.bitsToNat (BE.natBits k s) = s % 2 ^ (k + 1)
    rw [natBits_length, ih, pow_succ, Nat.mod_mul]
    rcases Nat.mod_two_eq_zero_or_one (s / 2 ^ k) with h | h
    · simp [h]
    · simp [h]
      omega

theorem readUe_code (k s : Nat) (t : List Bool) :
    Parse.readUe (List.replicate k false ++ true :: (BE.natBits k s ++ t)) =
      .ok (2 ^ k - 1 + s % 2 ^ k, t) := by
  have h := readNBits_append (BE.natBits k s) t
  rw [natBits_length, bitsToNat_natBits] at h
  simp [Parse.readUe, ueLoop_zeros, h]

/-! ## Helper lemmas: the bufio reader's fill loop on exhaustion -/

theorem fillLoop_avail_lt (n : Nat) :
    ∀ (src : List Nat) (acc bits : Nat), bits + 8 * src.length < n →
      Bufio.fillLoop n acc bits src = .error .unexpectedEOF := by
  intro src
  induction src with
  | nil =>
    intro acc bits h
    unfold Bufio.fillLoop
    simp at h
    simp [h]
  | cons b rest ih =>
    intro acc bits h
    unfold Bufio.fillLoop
    simp at h
    have hb : bits < n := by omega
    simp [hb]
    exact ih _ _ (by omega)

theorem fillLoop_error_unexpectedEOF (n : Nat) :
    ∀ (src : List Nat) (acc bits : Nat) (e : Bufio.IOErr),
      Bufio.fillLoop n acc bits src = .error e → e = .unexpectedEOF := by
  intro src
  induction src with
  | nil =>
    intro acc bits e h
    unfold Bufio.fillLoop at h
    by_cases hb : bits < n
    · simpa [hb] using h.symm
    · simp [hb] at h
  | cons b rest ih =>
    intro acc bits e h
    unfold Bufio.fillLoop at h
    by_cases hb : bits < n
    · simp [hb] at h
      exact ih _ _ _ h
    · simp [hb] at h

/-! ## Helper lemma: the MoreRBSPData scan loop never makes progress -/

theorem moreLoop_stuck (st : HB.BR) :
    ∀ (fuel cnt : Nat), HB.moreLoop st 0 cnt fuel = none := by
  intro fuel
  induction fuel with
  | zero => intro cnt; rfl
  | succ fuel ih =>
    intro cnt
    simpa [HB.moreLoop, HB.Read] using ih (cnt + 1)

/-! ## Claim theorems -/

/-- C1: the claim that consecutive `ReadBits(nᵢ)` calls always return the
big-endian decode of the stream split at the partition boundaries fails
on both cited implementations.  The cache-backed reader returns 7 for a
2-bit read after a 1-bit read on `0xff` (spec decode: 3, a 2-bit value);
the bufio-backed reader returns 0 for a 64-bit read after a 1-bit read
(spec decode: 0xFE00000000000000, the accumulator overflows 64 bits).
The claim's own concrete instance (bytes `0x8F 0xE3`, widths 4,2,4,6)
does hold on both. -/
theorem readBits_partition_counterexample :
    Cache.runReads (Cache.mk [0xff]) [1, 2] = some [1, 7] ∧
    BE.beSplit [0xff] [1, 2] = [1, 3] ∧
    Bufio.runReads (Bufio.mk [0xff, 0, 0, 0, 0, 0, 0, 0, 0]) [1, 64] = some [1, 0] ∧
    BE.beSplit [0xff, 0, 0, 0, 0, 0, 0, 0, 0] [1, 64] = [1, 18302628885633695744] ∧
    Bufio.runReads (Bufio.mk [0x8f, 0xe3]) [4, 2, 4, 6] = some [0x8, 0x3, 0xf, 0x23] ∧
    Cache.runReads (Cache.mk [0x8f, 0xe3]) [4, 2, 4, 6] = some [0x8, 0x3, 0xf, 0x23] ∧
    BE.beSplit [0x8f, 0xe3] [4, 2, 4, 6] = [0x8, 0x3, 0xf, 0x23] :=
  ⟨rfl, rfl, rfl, rfl, rfl, rfl, rfl⟩

/-- C2: the claim that `isStartSequence` accepts both start-code forms
fails: a buffer ending in the three-byte start code `0x00 0x00 0x01` is
rejected, because the function compares only the last four bytes with the
four-byte form `0x00 0x00 0x00 0x01`. -/
theorem isStartSequence_rejects_three_byte :
    isStartSequence [0xff, 0x00, 0x00, 0x01] = false ∧
    isStartSequence [0x00, 0x00, 0x01] = false ∧
    isStartSequence [0x00, 0x00, 0x00, 0x01] = true ∧
    isStartSequence [0x47, 0x00, 0x00, 0x00, 0x01] = true :=
  ⟨rfl, rfl, rfl, rfl⟩

/-- C3: decoding `0^k · 1 · bits(k,s)` with `readUe` yields `2^k − 1 + s`
(with the rest of the stream untouched).  The bound `k ≤ 52` is where the
code's float64 arithmetic is exact; it covers the claim's guaranteed
range `k ∈ [0..16]`. -/
theorem readUe_golomb (k s : Nat) (t : List Bool) (_hk : k ≤ 52) (hs : s < 2 ^ k) :
    Parse.readUe (List.replicate k false ++ true :: (BE.natBits k s ++ t)) =
      .ok (2 ^ k - 1 + s, t) := by
  have h := readUe_code k s t
  rwa [Nat.mod_eq_of_lt hs] at h

/-- C3 witness: `0 0 1 0 1` decodes to `2^2 − 1 + 1 = 4`. -/
theorem readUe_golomb_witness :
    Parse.readUe (List.replicate 2 false ++ true :: (BE.natBits 2 1 ++ [])) =
      .ok (2 ^ 2 - 1 + 1, []) :=
  readUe_golomb 2 1 [] (by decide) (by decide)

/-- C4: the claim that `PeekBits(n)` and the `ReadBits(n)` immediately
after it return the same value fails.  After consuming 4 bits of
`0xff 0x00`, `PeekBits 8` returns 0xf0 (matching what a lone `ReadBits 8`
returns from that state), but it shifts the peeked byte into the
persisted accumulator without adjusting `bits`, so the `ReadBits 8` that
actually follows the peek returns 0. -/
theorem peekBits_corrupts_accumulator :
    Bufio.ReadBits (Bufio.mk [0xff, 0x00]) 4 = (0xf, .ok ⟨[0x00], 0xff, 4⟩) ∧
    Bufio.PeekBits ⟨[0x00], 0xff, 4⟩ 8 = (0xf0, .ok ⟨[0x00], 0xff00, 4⟩) ∧
    Bufio.ReadBits ⟨[0x00], 0xff, 4⟩ 8 = (0xf0, .ok ⟨[], 0xff00, 4⟩) ∧
    Bufio.ReadBits ⟨[0x00], 0xff00, 4⟩ 8 = (0, .ok ⟨[], 0xff0000, 4⟩) :=
  ⟨rfl, rfl, rfl, rfl⟩

/-- C5: the claim that `MoreRBSPData` terminates and reports a remaining
1-bit fails: `Read` is a stub returning `(0, nil)` that never fills the
scan buffer, so whenever buffered bytes remain (here `0x80`, whose
1-bit should give `true`) the scan loop never exits, for every fuel
bound; the only terminating case is an empty remainder, which returns
`false`. -/
theorem moreRBSPData_never_terminates :
    (∀ fuel, HB.MoreRBSPData ⟨[0x80], 0, 0, 0⟩ fuel = none) ∧
    HB.MoreRBSPData ⟨[0x80], 1, 0, 8⟩ 1 = some false := by
  constructor
  · intro fuel
    unfold HB.MoreRBSPData
    rw [if_neg (by decide)]
    exact moreLoop_stuck _ fuel 0
  · rfl

/-- C6: the claim that `RewindBits(n)` moves the cursor back exactly n
bits fails for `n > 8`: after consuming 32 bits, `RewindBits 16` first
calls `RewindBytes (16/8)` (which already subtracts 16 from `bitsRead`)
and then subtracts 16 again, leaving `bitsRead = 0` instead of 16.  For
`n ≤ 8` the rewind is exact (32 − 8 = 24). -/
theorem rewindBits_double_subtraction :
    HB.RewindBits (HB.Fastforward ⟨[0xab, 0xab, 0xab, 0xab], 0, 0, 0⟩ 32) 16 =
      .ok ⟨[0xab, 0xab, 0xab, 0xab], 0, 0, 0⟩ ∧
    HB.RewindBits (HB.Fastforward ⟨[0xab, 0xab, 0xab, 0xab], 0, 0, 0⟩ 32) 8 =
      .ok ⟨[0xab, 0xab, 0xab, 0xab], 3, 0, 24⟩ :=
  ⟨rfl, rfl⟩

/-- C7 counterexample: a prefix of 33 leading zeros does not make
`readUe` fail — the code has no leading-zero bound, so it returns the
code number `2^33 − 1`, refuting the claimed `SyntaxViolation` error. -/
theorem readUe_33_zeros_counterexample :
    Parse.readUe (List.replicate 33 false ++ true :: List.replicate 33 false) =
      .ok (2 ^ 33 - 1, []) :=
  rfl

/-- C7 amended: `readUe` applies no bound to the leading-zero count k;
for k = 33 (beyond the claimed 32-zero limit) it successfully returns
`2^33 − 1 + s` for every 33-bit suffix s, failing only when a bit read
fails. -/
theorem readUe_33_zeros_decodes (s : Nat) (t : List Bool) (hs : s < 2 ^ 33) :
    Parse.readUe (List.replicate 33 false ++ true :: (BE.natBits 33 s ++ t)) =
      .ok (2 ^ 33 - 1 + s, t) := by
  have h := readUe_code 33 s t
  rwa [Nat.mod_eq_of_lt hs] at h

/-- C7 amended witness: 33 zeros, a one, and the 33-bit suffix 5 decode
to `2^33 − 1 + 5`. -/
theorem readUe_33_zeros_decodes_witness :
    Parse.readUe (List.replicate 33 false ++ true :: (BE.natBits 33 5 ++ [])) =
      .ok (2 ^ 33 - 1 + 5, []) :=
  readUe_33_zeros_decodes 5 [] (by decide)

/-- C8: the claim that every entry of `rangeTabLPS` equals Table 9-44 of
ITU-T H.264 §9.3.3.2.1.1 fails in exactly two cells: row 33 of the
source table reads `{26, 61, 67, 43}` where the standard has
`{26, 31, 37, 43}`; all other 254 entries agree. -/
theorem rangeTabLPS_row33_mismatch :
    rangeTabLPSDiff = [(33, 1), (33, 2)] ∧
    rangeTabLPSval 33 1 = 61 ∧ rangeTabLPSval 33 2 = 67 ∧
    rangeTabLPSStdVal 33 1 = 31 ∧ rangeTabLPSStdVal 33 2 = 37 :=
  ⟨rfl, rfl, rfl, rfl, rfl⟩

/-- C9: when fewer than n bits remain obtainable, `ReadBits n` returns
the pair `(0, io.ErrUnexpectedEOF)` — the source's `io.EOF` is converted
and never surfaced — and every error case carries the value 0 and that
same error. -/
theorem readBits_unexpectedEOF (st : Bufio.BR) (n : Nat) :
    (Bufio.avail st < n →
      Bufio.ReadBits st n = (0, .error .unexpectedEOF)) ∧
    (∀ v e, Bufio.ReadBits st n = (v, .error e) →
      v = 0 ∧ e = .unexpectedEOF) := by
  obtain ⟨src, acc, bits⟩ := st
  constructor
  · intro h
    simp only [Bufio.avail] at h
    unfold Bufio.ReadBits
    rw [fillLoop_avail_lt n src acc bits h]
  · intro v e h
    unfold Bufio.ReadBits at h
    cases hf : Bufio.fillLoop n acc bits src with
    | error e' =>
      rw [hf] at h
      obtain ⟨hv, he⟩ := Prod.mk.injEq .. ▸ h
      exact ⟨hv.symm ▸ rfl, by
        cases he
        exact fillLoop_error_unexpectedEOF n src acc bits e hf⟩
    | ok st' =>
      rw [hf] at h
      simp at h

/-- C9 witness: a 1-bit read on an exhausted reader yields
`(0, io.ErrUnexpectedEOF)`. -/
theorem readBits_unexpectedEOF_witness :
    Bufio.ReadBits (Bufio.mk []) 1 = (0, .error .unexpectedEOF) :=
  (readBits_unexpectedEOF (Bufio.mk []) 1).1 (by decide)

/-- C10: `retCodIRangeLPS` errors exactly on out-of-range indices, and on
every in-range pair returns the `rangeTabLPS` entry with a nil error; the
bounds guards make the lookup total. -/
theorem retCodIRangeLPS_bounds (p q : Int) :
    ((∃ msg, retCodIRangeLPS p q = .error msg) ↔
      ¬(0 ≤ p ∧ p < 64 ∧ 0 ≤ q ∧ q < 4)) ∧
    ((0 ≤ p ∧ p < 64 ∧ 0 ≤ q ∧ q < 4) →
      retCodIRangeLPS p q = .ok (rangeTabLPSval p.toNat q.toNat)) := by
  unfold retCodIRangeLPS
  simp only [rangeTabLPSRows, rangeTabLPSColumns, Nat.cast_ofNat]
  split_ifs with h1 h2
  · refine ⟨⟨fun _ hc => ?_, fun _ => ⟨_, rfl⟩⟩, fun hc => ?_⟩
    · rcases h1 with h | h <;> omega
    · exfalso; rcases h1 with h | h <;> omega
  · refine ⟨⟨fun _ hc => ?_, fun _ => ⟨_, rfl⟩⟩, fun hc => ?_⟩
    · rcases h2 with h | h <;> omega
    · exfalso; rcases h2 with h | h <;> omega
  · push_neg at h1 h2
    refine ⟨⟨fun ⟨msg, hmsg⟩ => by simp at hmsg, fun hc => ?_⟩, fun _ => rfl⟩
    exfalso; exact hc ⟨by omega, by omega, by omega, by omega⟩

/-- C10 witness: the in-range pair (5, 2) returns the table entry. -/
theorem retCodIRangeLPS_bounds_witness :
    retCodIRangeLPS 5 2 = .ok (rangeTabLPSval (Int.toNat 5) (Int.toNat 2)) :=
  (retCodIRangeLPS_bounds 5 2).2 (by decide)
